import Mathlib

/-!
A shallow embedding of `tools/validate_data.py`, a repository-shape JSON
validator.  Strings are modelled as `List Char` (`Str`), decoded JSON
documents as the inductive `Json` (Python `json.load` output: `null ↦ None`,
objects as key/value association lists with distinct keys), and the
directory tree walked by `os.walk` as lists of `Entry`.  Diagnostics are
modelled as an inductive `Diag` with one constructor per `errors.append`
site of the source, carrying the same path/index/field payload.  An
uncaught Python exception (the `TypeError` raised by `x in data` on a
non-container) is modelled by `Except.error`.
-/

abbrev Str := List Char

/-- Python `str.startswith` / list prefix test, as a boolean. -/
def isPrefixB : Str → Str → Bool
  | [], _ => true
  | _ :: _, [] => false
  | a :: as, b :: bs => a == b && isPrefixB as bs

/-- Python `str.endswith`: `endsWithB suf s` is true iff `suf` is a suffix of `s`. -/
def endsWithB (suf s : Str) : Bool := isPrefixB suf.reverse s.reverse

/-- Python `needle in hay` for strings: substring containment. -/
def containsSub (needle : Str) : Str → Bool
  | [] => isPrefixB needle []
  | c :: t => isPrefixB needle (c :: t) || containsSub needle t

/-- Decoded JSON values as produced by Python's `json.load`.  JSON `null`
decodes to Python `None`, represented by `Json.null`; numbers are modelled
as integers (the checks of the validator never inspect numeric values). -/
inductive Json where
  | null : Json
  | bool : Bool → Json
  | num : Int → Json
  | str : Str → Json
  | arr : List Json → Json
  | obj : List (Str × Json) → Json

/-- Python `value is None` on a decoded JSON value. -/
def Json.isNull : Json → Bool
  | .null => true
  | _ => false

/-- Python `isinstance(value, list)` on a decoded JSON value. -/
def Json.isArr : Json → Bool
  | .arr _ => true
  | _ => false

/-- Python `isinstance(value, dict)` on a decoded JSON value. -/
def Json.isObj : Json → Bool
  | .obj _ => true
  | _ => false

/-- Python `k in d` for a dict `d` (key membership). -/
def hasKey (kvs : List (Str × Json)) (k : Str) : Bool := kvs.any (fun p => p.1 == k)

/-- Python `d.get(k)` for a dict `d`: the value stored at `k`, defaulting to
`None` when the key is absent (keys of a decoded JSON object are distinct,
so the first association is the association). -/
def dictGet (kvs : List (Str × Json)) (k : Str) : Json :=
  match kvs.find? (fun p => p.1 == k) with
  | some p => p.2
  | none => Json.null

/-- Python `x in data` for an arbitrary decoded JSON value `data`: key
membership for objects, element membership for arrays, substring test for
strings, and an uncaught `TypeError` (modelled as `Except.error ()`) for
numbers, booleans and `None`, which are not containers. -/
def pyMem (x : Str) (data : Json) : Except Unit Bool :=
  match data with
  | .obj kvs => .ok (hasKey kvs x)
  | .arr xs => .ok (xs.any (fun v => match v with | .str s => s == x | _ => false))
  | .str s => .ok (containsSub x s)
  | _ => .error ()

/-- The ordered identifier-bearing candidate keys of the source. -/
def identifierKeys : List Str := ["identifier".data, "id".data, "publication_identifier".data]

/-- The ordered author-bearing candidate keys of the source. -/
def authorKeys : List Str := ["author".data, "author_name".data, "author_names".data]

/-- The loop body shared by `get_identifier_from` and `get_author_from`:
`for k in keys: if isinstance(obj, dict) and k in obj: return obj.get(k)`,
falling through to `return None`.  A present key whose stored value is JSON
`null` makes the loop return Python `None` (`Json.null`). -/
def firstKeyVal (obj : Json) : List Str → Json
  | [] => Json.null
  | k :: ks =>
      match obj with
      | .obj kvs => if hasKey kvs k then dictGet kvs k else firstKeyVal (.obj kvs) ks
      | _ => firstKeyVal obj ks

/-- `get_identifier_from` of the source (lines 30-35). -/
def get_identifier_from (obj : Json) : Json := firstKeyVal obj identifierKeys

/-- `get_author_from` of the source (lines 37-41). -/
def get_author_from (obj : Json) : Json := firstKeyVal obj authorKeys

/-- The first-present value among candidate keys, kept apart from the null
value conflation: `some v` when some candidate key is present (its stored
value, which may itself be `Json.null`), `none` when no candidate key is
present.  Used to state presence-versus-null properties of `firstKeyVal`. -/
def lookupFirstVal (kvs : List (Str × Json)) : List Str → Option Json
  | [] => none
  | k :: ks => if hasKey kvs k then some (dictGet kvs k) else lookupFirstVal kvs ks

/-- Python `", ".join` over already-rendered pieces. -/
def joinComma : List Str → Str
  | [] => []
  | [s] => s
  | s :: t :: r => s ++ ", ".data ++ joinComma (t :: r)

/-- Python `repr` of a string: surrounding quotes, escaping backslash and
the quote character (the source never depends on the exotic quote-choice
rules of CPython, which are not modelled). -/
def reprQuote (s : Str) : Str :=
  Char.ofNat 39 ::
    (s.flatMap (fun c => if c == Char.ofNat 92 || c == Char.ofNat 39 then [Char.ofNat 92, c] else [c]))
    ++ [Char.ofNat 39]

/-- Python `repr` of a decoded JSON value. -/
def reprJ : Json → Str
  | .null => "None".data
  | .bool b => if b then "True".data else "False".data
  | .num n => (toString n).data
  | .str s => reprQuote s
  | .arr xs => '[' :: joinComma (xs.attach.map (fun x => reprJ x.1)) ++ [']']
  | .obj kvs =>
      Char.ofNat 123 ::
        joinComma (kvs.attach.map (fun p => reprQuote p.1.1 ++ ": ".data ++ reprJ p.1.2))
        ++ [Char.ofNat 125]
decreasing_by
  · have h1 := List.sizeOf_lt_of_mem x.2
    simp [Json.arr.sizeOf_spec]
    omega
  · have h1 := List.sizeOf_lt_of_mem p.2
    have h2 : sizeOf p.1.2 < sizeOf p.1 := by cases p.1 with | mk a b => simp
    simp [Json.obj.sizeOf_spec]
    omega

/-- Python `str` of a decoded JSON value (`str` on containers delegates to
`repr`). -/
def pyStr : Json → Str
  | .str s => s
  | .num n => (toString n).data
  | .bool b => if b then "True".data else "False".data
  | .null => "None".data
  | .arr xs => reprJ (.arr xs)
  | .obj kvs => reprJ (.obj kvs)

/-- A filesystem path as the walker builds it: the list of its `/`-separated
segments, starting with the root `"."` handed to `os.walk`. -/
def joinSegs : List Str → Str
  | [] => []
  | [s] => s
  | s :: t :: r => s ++ '/' :: joinSegs (t :: r)

/-- `os.path.basename` for walker-produced paths: the final segment. -/
def basename (p : List Str) : Str := p.getLast?.getD []

/-- `os.path.basename(os.path.dirname(path))`: the name of the immediate
parent directory. -/
def parentName (p : List Str) : Str := basename p.dropLast

/-- `os.path.normpath`, modelled for walker-produced paths (segments never
contain a separator and are never `..`): dropping the `.` segments. -/
def normSegs (p : List Str) : List Str := p.filter (fun s => !(s == ".".data))

/-- `is_publication_manifest` of the source (lines 20-21). -/
def is_publication_manifest (p : List Str) : Bool :=
  basename p == "manifest.json".data && containsSub "/publications/".data (joinSegs p)

/-- `is_dialogues` of the source (lines 23-24). -/
def is_dialogues (p : List Str) : Bool :=
  basename p == "dialogues.json".data && containsSub "/segments/".data (joinSegs p)

/-- `is_recent` of the source (lines 26-28): a literal string-suffix test on
the normalized path. -/
def is_recent (p : List Str) : Bool :=
  endsWithB "publications/recent.json".data (joinSegs (normSegs p))

/-- The path-shape classification of §3 of the specification, with the
first-match-wins precedence of the source's `if`/`elif` chain. -/
inductive FileClass where
  | manifest : FileClass
  | dialogues : FileClass
  | recent : FileClass
  | generic : FileClass
  | unclassified : FileClass
deriving DecidableEq

/-- Classification of a non-skipped JSON file by its path, following the
dispatch chain of the source (lines 67, 83, 96, 110). -/
def classify (p : List Str) : FileClass :=
  if is_publication_manifest p then .manifest
  else if is_dialogues p then .dialogues
  else if is_recent p then .recent
  else if containsSub "/publications/".data (joinSegs p) then .generic
  else .unclassified

/-- One diagnostic, one constructor per `errors.append` site of the source
(line numbers in the constructor comments), carrying the same payload the
corresponding f-string interpolates. -/
inductive Diag where
  | parseErr : List Str → Str → Diag
  | missingManifestField : List Str → Str → Diag
  | dirMismatch : List Str → Str → Str → Diag
  | missingIdentifier : List Str → Diag
  | dialoguesNotArray : List Str → Diag
  | dialogueNotObject : List Str → Nat → Diag
  | missingDialogueField : List Str → Nat → Str → Diag
  | recentNotArray : List Str → Diag
  | recentNotObject : List Str → Nat → Diag
  | recentMissingIdentifier : List Str → Nat → Diag
  | recentMissingAuthor : List Str → Nat → Diag
  | genericMissingIdentifier : List Str → Diag
deriving DecidableEq

/-- The path a diagnostic references (every f-string of the source
interpolates exactly one path). -/
def diagPath : Diag → List Str
  | .parseErr p _ => p
  | .missingManifestField p _ => p
  | .dirMismatch p _ _ => p
  | .missingIdentifier p => p
  | .dialoguesNotArray p => p
  | .dialogueNotObject p _ => p
  | .missingDialogueField p _ _ => p
  | .recentNotArray p => p
  | .recentNotObject p _ => p
  | .recentMissingIdentifier p _ => p
  | .recentMissingAuthor p _ => p
  | .genericMissingIdentifier p => p

/-- The array index a diagnostic references, when it references one. -/
def diagIndex : Diag → Option Nat
  | .dialogueNotObject _ i => some i
  | .missingDialogueField _ i _ => some i
  | .recentNotObject _ i => some i
  | .recentMissingIdentifier _ i => some i
  | .recentMissingAuthor _ i => some i
  | _ => none

/-- The required-field loop of the manifest branch (lines 69-72):
`for r in required: if r not in data: errors.append(...)`.  The membership
test `r not in data` raises `TypeError` when `data` is not a container. -/
def requiredDiags (path : List Str) (data : Json) : List Str → Except Unit (List Diag)
  | [] => .ok []
  | r :: rs =>
      match pyMem r data with
      | .error e => .error e
      | .ok present =>
          match requiredDiags path data rs with
          | .error e => .error e
          | .ok rest => .ok ((if present then [] else [Diag.missingManifestField path r]) ++ rest)

/-- The identifier half of the manifest branch (lines 74-80). -/
def identifierDiags (path : List Str) (data : Json) : List Diag :=
  let parent_dir := parentName path
  let identifier := get_identifier_from data
  if !identifier.isNull && !(parent_dir == pyStr identifier) then
    [Diag.dirMismatch path parent_dir (pyStr identifier)]
  else if identifier.isNull then
    [Diag.missingIdentifier path]
  else []

/-- The whole manifest branch (lines 67-80). -/
def manifestCheck (path : List Str) (data : Json) : Except Unit (List Diag) :=
  match requiredDiags path data ["identifier".data, "title".data] with
  | .error e => .error e
  | .ok ds => .ok (ds ++ identifierDiags path data)

/-- Per-element body of the dialogues loop (lines 87-93). -/
def dialogueItemDiags (path : List Str) (i : Nat) (item : Json) : List Diag :=
  match item with
  | .obj kvs =>
      ["character_identifier".data, "ordinal".data, "text".data].filterMap
        (fun rf => if hasKey kvs rf then none else some (Diag.missingDialogueField path i rf))
  | _ => [Diag.dialogueNotObject path i]

/-- The dialogues branch (lines 83-93). -/
def dialoguesCheck (path : List Str) (data : Json) : List Diag :=
  match data with
  | .arr items => items.enum.flatMap (fun p => dialogueItemDiags path p.1 p.2)
  | _ => [Diag.dialoguesNotArray path]

/-- Per-element body of the recent loop (lines 100-107). -/
def recentItemDiags (path : List Str) (i : Nat) (item : Json) : List Diag :=
  match item with
  | .obj kvs =>
      (if (get_identifier_from (.obj kvs)).isNull then [Diag.recentMissingIdentifier path i] else [])
      ++ (if (get_author_from (.obj kvs)).isNull then [Diag.recentMissingAuthor path i] else [])
  | _ => [Diag.recentNotObject path i]

/-- The recent branch (lines 96-107). -/
def recentCheck (path : List Str) (data : Json) : List Diag :=
  match data with
  | .arr items => items.enum.flatMap (fun p => recentItemDiags path p.1 p.2)
  | _ => [Diag.recentNotArray path]

/-- The generic publication branch (lines 110-116). -/
def genericCheck (path : List Str) (data : Json) : List Diag :=
  match data with
  | .obj kvs =>
      if (get_identifier_from (.obj kvs)).isNull then [Diag.genericMissingIdentifier path] else []
  | _ => []

/-- Classification dispatch and branch body for one parsed file
(lines 66-116): the `if`/`elif` chain over the path predicates. -/
def processFile (path : List Str) (data : Json) : Except Unit (List Diag) :=
  if is_publication_manifest path then manifestCheck path data
  else if is_dialogues path then .ok (dialoguesCheck path data)
  else if is_recent path then .ok (recentCheck path data)
  else if containsSub "/publications/".data (joinSegs path) then .ok (genericCheck path data)
  else .ok []

/-- The per-file loop body over the walked files (lines 52-116): the name
filters, the guarded parse (a parse failure appends one diagnostic and
skips the file), and the classified checks.  Returns the accumulated
diagnostics paired with a flag that is true when an uncaught exception
aborted the run (in which case later files are never visited and the
diagnostics accumulated so far are never printed). -/
def runLoop : List (List Str × Except Str Json) → List Diag × Bool
  | [] => ([], false)
  | (path, content) :: rest =>
      let fname := basename path
      if !endsWithB ".json".data fname then runLoop rest
      else if fname == "meta.json".data || isPrefixB "package".data fname then runLoop rest
      else
        match content with
        | .error e =>
            let r := runLoop rest
            (Diag.parseErr path e :: r.1, r.2)
        | .ok data =>
            match processFile path data with
            | .error _ => ([], true)
            | .ok ds =>
                let r := runLoop rest
                (ds ++ r.1, r.2)

/-- A directory-tree entry: a file with its name and the result of parsing
its bytes as JSON (`Except.error msg` models a `json.load` failure), or a
directory with its name and children, listed in `os.scandir` order. -/
inductive Entry where
  | file : Str → Except Str Json → Entry
  | dir : Str → List Entry → Entry

/-- The pruning test of line 49-50: directory names removed from `dirs`. -/
def skipName (n : Str) : Bool :=
  n == ".git".data || n == ".github".data || n == "node_modules".data || n == "__pycache__".data

/-- The files `os.walk` reports directly under one root. -/
def filesOf (path : List Str) (es : List Entry) : List (List Str × Except Str Json) :=
  es.filterMap (fun e => match e with | .file n c => some (path ++ [n], c) | _ => none)

/-- The recursive part of the top-down `os.walk` of line 47: every file
under the non-pruned subdirectories, parents before children. -/
def walkDirs (path : List Str) : List Entry → List (List Str × Except Str Json)
  | [] => []
  | .file _ _ :: rest => walkDirs path rest
  | .dir n ch :: rest =>
      (if skipName n then []
       else filesOf (path ++ [n]) ch ++ walkDirs (path ++ [n]) ch) ++ walkDirs path rest

/-- All files `os.walk(".", topdown=True)` visits, with the pruning of
lines 49-50, in visiting order. -/
def walkList (path : List Str) (es : List Entry) : List (List Str × Except Str Json) :=
  filesOf path es ++ walkDirs path es

/-- The whole run over a directory tree rooted at the working directory:
walk, filter, parse, check.  The boolean is true when the run died with an
uncaught `TypeError`. -/
def runValidator (t : List Entry) : List Diag × Bool :=
  runLoop (walkList [".".data] t)

/-- The final report (lines 118-126): the process exit code and the
diagnostics printed, in emission order.  A run aborted by an uncaught
exception prints no diagnostics and the interpreter exits with status 1. -/
def finalReport : List Diag × Bool → Nat × List Diag
  | (_, true) => (1, [])
  | (ds, false) => if ds.isEmpty then (0, []) else (1, ds)

/-- Convenience constructor for concrete paths and key lists. -/
def segs (l : List String) : List Str := l.map String.data

/-- The decoded JSON values on which Python's `in` operator succeeds
(containers and strings); on the others it raises `TypeError`. -/
def isContainerLike : Json → Bool
  | .obj _ => true
  | .arr _ => true
  | .str _ => true
  | _ => false

/-- A walked file on which the per-file loop body raises an uncaught
exception: it survives the name filters, parsed successfully, is classified
as a manifest, and its document is not a container. -/
def crashyFile (f : List Str × Except Str Json) : Bool :=
  match f.2 with
  | .error _ => false
  | .ok data =>
      endsWithB ".json".data (basename f.1)
      && !(basename f.1 == "meta.json".data || isPrefixB "package".data (basename f.1))
      && is_publication_manifest f.1
      && !isContainerLike data

/-! ## Basic lemmas about the embedded primitives -/

theorem isNull_iff (j : Json) : j.isNull = true ↔ j = Json.null := by
  cases j <;> simp [Json.isNull]

theorem isPrefixB_iff (p s : Str) : isPrefixB p s = true ↔ p <+: s := by
  induction p generalizing s with
  | nil => simp [isPrefixB]
  | cons a as ih =>
    cases s with
    | nil => simp [isPrefixB]
    | cons b bs =>
      rw [isPrefixB]
      simp [ih, List.cons_prefix_cons]

theorem endsWithB_iff (p s : Str) : endsWithB p s = true ↔ p <:+ s := by
  rw [endsWithB, isPrefixB_iff, List.reverse_prefix]

theorem containsSub_iff (n h : Str) : containsSub n h = true ↔ n <:+: h := by
  induction h with
  | nil => simp [containsSub, isPrefixB_iff]
  | cons c t ih =>
    rw [containsSub]
    simp [isPrefixB_iff, ih, List.infix_cons_iff]

theorem firstKeyVal_obj (kvs : List (Str × Json)) (ks : List Str) :
    firstKeyVal (Json.obj kvs) ks = (lookupFirstVal kvs ks).getD Json.null := by
  induction ks with
  | nil => rfl
  | cons k ks ih =>
    by_cases h : hasKey kvs k = true <;> simp [firstKeyVal, lookupFirstVal, h, ih]

theorem firstKeyVal_not_obj (data : Json) (ks : List Str) (h : data.isObj = false) :
    firstKeyVal data ks = Json.null := by
  induction ks with
  | nil => rfl
  | cons k ks ih => cases data <;> simp_all [firstKeyVal, Json.isObj]

theorem requiredDiags_obj (path : List Str) (kvs : List (Str × Json)) (rs : List Str) :
    requiredDiags path (Json.obj kvs) rs =
      .ok (rs.filterMap
        (fun r => if hasKey kvs r then none else some (Diag.missingManifestField path r))) := by
  induction rs with
  | nil => rfl
  | cons r rs ih =>
    by_cases h : hasKey kvs r = true <;> simp [requiredDiags, pyMem, ih, h]

theorem requiredDiags_ok_shape (path : List Str) (data : Json) (rs : List Str) (ds : List Diag)
    (h : requiredDiags path data rs = .ok ds) :
    ∀ d ∈ ds, ∃ r ∈ rs, d = Diag.missingManifestField path r := by
  induction rs generalizing ds with
  | nil =>
    simp [requiredDiags] at h
    simp [h]
  | cons r rs ih =>
    rw [requiredDiags] at h
    cases hm : pyMem r data with
    | error e => rw [hm] at h; exact absurd h (by simp)
    | ok present =>
      rw [hm] at h
      cases hr : requiredDiags path data rs with
      | error e => rw [hr] at h; exact absurd h (by simp)
      | ok rest =>
        rw [hr] at h
        simp at h
        subst h
        intro d hd
        rcases List.mem_append.1 hd with h1 | h1
        · cases present <;> simp at h1
          exact ⟨r, by simp, h1⟩
        · obtain ⟨r2, hr2, he⟩ := ih rest hr d h1
          exact ⟨r2, by simp [hr2], he⟩

theorem manifestCheck_ok_parts (path : List Str) (data : Json) (ds : List Diag)
    (h : manifestCheck path data = .ok ds) :
    ∃ ds1, requiredDiags path data ["identifier".data, "title".data] = .ok ds1
      ∧ ds = ds1 ++ identifierDiags path data := by
  rw [manifestCheck] at h
  cases hr : requiredDiags path data ["identifier".data, "title".data] with
  | error e => rw [hr] at h; exact absurd h (by simp)
  | ok ds1 =>
    rw [hr] at h
    simp at h
    exact ⟨ds1, rfl, h.symm⟩

theorem identifierDiags_null (path : List Str) (data : Json)
    (h : (get_identifier_from data).isNull = true) :
    identifierDiags path data = [Diag.missingIdentifier path] := by
  simp [identifierDiags, h]

theorem identifierDiags_eq (path : List Str) (data : Json)
    (h : (get_identifier_from data).isNull = false)
    (he : parentName path = pyStr (get_identifier_from data)) :
    identifierDiags path data = [] := by
  simp [identifierDiags, h, he]

theorem identifierDiags_ne (path : List Str) (data : Json)
    (h : (get_identifier_from data).isNull = false)
    (hne : ¬ parentName path = pyStr (get_identifier_from data)) :
    identifierDiags path data = [Diag.dirMismatch path (parentName path) (pyStr (get_identifier_from data))] := by
  simp [identifierDiags, h, hne]

theorem processFile_manifest (path : List Str) (data : Json)
    (h : is_publication_manifest path = true) :
    processFile path data = manifestCheck path data := by
  simp [processFile, h]

/-! ## Claim theorems -/

/-- C4: for every ManifestFile whose document is a JSON object with key
`title` present and none of the keys `identifier`, `id`,
`publication_identifier` present, the run emits exactly two diagnostics for
that file: a missing-required-field diagnostic for the literal key
`identifier`, followed by the manifest-missing-identifier diagnostic. -/
theorem c4_manifest_two_diagnostics (path : List Str) (kvs : List (Str × Json))
    (hclass : is_publication_manifest path = true)
    (htitle : hasKey kvs "title".data = true)
    (h1 : hasKey kvs "identifier".data = false)
    (h2 : hasKey kvs "id".data = false)
    (h3 : hasKey kvs "publication_identifier".data = false) :
    processFile path (Json.obj kvs) =
      Except.ok [Diag.missingManifestField path "identifier".data, Diag.missingIdentifier path] := by
  have hid : identifierDiags path (Json.obj kvs) = [Diag.missingIdentifier path] :=
    identifierDiags_null path _
      (by simp [get_identifier_from, identifierKeys, firstKeyVal, h1, h2, h3, Json.isNull])
  rw [processFile_manifest path _ hclass, manifestCheck, requiredDiags_obj]
  simp [h1, htitle, hid]

/-- Witness for C4 at the spec's concrete example `{"title": "T"}` under
`publications/X/manifest.json`. -/
theorem c4_manifest_two_diagnostics_witness :
    processFile (segs [".", "publications", "X", "manifest.json"])
        (Json.obj [("title".data, Json.str "T".data)]) =
      Except.ok [Diag.missingManifestField (segs [".", "publications", "X", "manifest.json"]) "identifier".data,
        Diag.missingIdentifier (segs [".", "publications", "X", "manifest.json"])] :=
  c4_manifest_two_diagnostics _ _ (by decide) (by decide) (by decide) (by decide) (by decide)

/-- C10 (implicit): for a ManifestFile whose parsed document is a JSON
string, the required-field check degenerates to substring containment (a
missing-required-field diagnostic for `identifier`, respectively `title`,
is emitted exactly when the string does not contain that key as a
substring), the identifier-resolution branch always emits the
manifest-missing-identifier diagnostic, and the file is processed without
an uncaught failure. -/
theorem c10_string_manifest (path : List Str) (s : Str)
    (hclass : is_publication_manifest path = true) :
    processFile path (Json.str s) =
      Except.ok ((if containsSub "identifier".data s then [] else [Diag.missingManifestField path "identifier".data])
        ++ (if containsSub "title".data s then [] else [Diag.missingManifestField path "title".data])
        ++ [Diag.missingIdentifier path])
    ∧ (containsSub "identifier".data s = true ↔ "identifier".data <:+: s) := by
  constructor
  · have hid : identifierDiags path (Json.str s) = [Diag.missingIdentifier path] :=
      identifierDiags_null path _
        (by simp [get_identifier_from, identifierKeys, firstKeyVal, Json.isNull])
    rw [processFile_manifest path _ hclass, manifestCheck]
    simp [requiredDiags, pyMem, hid]
  · exact containsSub_iff _ _

/-- Witness for C10 at a concrete string manifest document containing
`identifier` but not `title` as a substring. -/
theorem c10_string_manifest_witness :
    processFile (segs [".", "publications", "X", "manifest.json"])
        (Json.str "an identifier but no headline".data) =
      Except.ok ((if containsSub "identifier".data "an identifier but no headline".data then []
          else [Diag.missingManifestField (segs [".", "publications", "X", "manifest.json"]) "identifier".data])
        ++ (if containsSub "title".data "an identifier but no headline".data then []
          else [Diag.missingManifestField (segs [".", "publications", "X", "manifest.json"]) "title".data])
        ++ [Diag.missingIdentifier (segs [".", "publications", "X", "manifest.json"])])
    ∧ (containsSub "identifier".data "an identifier but no headline".data = true
        ↔ "identifier".data <:+: "an identifier but no headline".data) :=
  c10_string_manifest _ _ (by decide)

/-- C5: for a ManifestFile whose identifier resolution produced a value, the
directory-mismatch warning is emitted iff the string form of the identifier
differs from the basename of the parent directory; the mismatch warning and
the manifest-missing-identifier diagnostic never both fire for one file. -/
theorem c5_dir_mismatch (path : List Str) (data : Json) (ds : List Diag)
    (hclass : is_publication_manifest path = true)
    (hrun : processFile path data = Except.ok ds) :
    ((get_identifier_from data).isNull = false →
      (Diag.dirMismatch path (parentName path) (pyStr (get_identifier_from data)) ∈ ds
        ↔ pyStr (get_identifier_from data) ≠ parentName path)
      ∧ Diag.missingIdentifier path ∉ ds)
    ∧ ¬((∃ a b, Diag.dirMismatch path a b ∈ ds) ∧ Diag.missingIdentifier path ∈ ds) := by
  rw [processFile_manifest path data hclass] at hrun
  obtain ⟨ds1, hds1, hsplit⟩ := manifestCheck_ok_parts path data ds hrun
  have hshape := requiredDiags_ok_shape path data _ ds1 hds1
  have hnotms : ∀ a b, Diag.dirMismatch path a b ∉ ds1 := by
    intro a b hm
    obtain ⟨r, _, he⟩ := hshape _ hm
    exact absurd he (by simp)
  have hnotmi : Diag.missingIdentifier path ∉ ds1 := by
    intro hm
    obtain ⟨r, _, he⟩ := hshape _ hm
    exact absurd he (by simp)
  subst hsplit
  constructor
  · intro hnn
    by_cases heq : parentName path = pyStr (get_identifier_from data)
    · rw [identifierDiags_eq path data hnn heq]
      rw [List.append_nil]
      constructor
      · constructor
        · intro hmem
          exact absurd hmem (hnotms _ _)
        · intro hne
          exact absurd heq.symm hne
      · exact hnotmi
    · rw [identifierDiags_ne path data hnn heq]
      constructor
      · constructor
        · intro _
          exact fun h => heq h.symm
        · intro _
          simp
      · simp
        exact hnotmi
  · rintro ⟨⟨a, b, hab⟩, hmi⟩
    cases hnn : (get_identifier_from data).isNull with
    | true =>
      rw [identifierDiags_null path data hnn] at hab
      simp at hab
      exact absurd hab (hnotms _ _)
    | false =>
      by_cases heq : parentName path = pyStr (get_identifier_from data)
      · rw [identifierDiags_eq path data hnn heq, List.append_nil] at hmi
        exact absurd hmi hnotmi
      · rw [identifierDiags_ne path data hnn heq] at hmi
        simp at hmi
        exact absurd hmi hnotmi

/-- Witness for C5 at the spec's concrete example
`{"identifier": "Y", "title": "T"}` under `publications/X/manifest.json`,
which yields exactly the one mismatch warning. -/
theorem c5_dir_mismatch_witness :
    processFile (segs [".", "publications", "X", "manifest.json"])
        (Json.obj [("identifier".data, Json.str "Y".data), ("title".data, Json.str "T".data)]) =
      Except.ok [Diag.dirMismatch (segs [".", "publications", "X", "manifest.json"]) "X".data "Y".data]
    ∧ ((Diag.dirMismatch (segs [".", "publications", "X", "manifest.json"]) "X".data "Y".data
          ∈ [Diag.dirMismatch (segs [".", "publications", "X", "manifest.json"]) "X".data "Y".data]
        ↔ "Y".data ≠ "X".data)
      ∧ Diag.missingIdentifier (segs [".", "publications", "X", "manifest.json"])
          ∉ [Diag.dirMismatch (segs [".", "publications", "X", "manifest.json"]) "X".data "Y".data]) := by
  constructor
  · rfl
  · have h := c5_dir_mismatch (segs [".", "publications", "X", "manifest.json"])
      (Json.obj [("identifier".data, Json.str "Y".data), ("title".data, Json.str "T".data)])
      [Diag.dirMismatch (segs [".", "publications", "X", "manifest.json"]) "X".data "Y".data]
      (by decide) (by rfl)
    exact h.1 (by rfl)

/-- C1 (amended): identifier resolution on a manifest object returns the
first present key's value, and the manifest-missing-identifier diagnostic is
suppressed, exactly when that value is not JSON `null`; a first present key
whose value is `null` is indistinguishable from an absent key, and the
diagnostic is emitted. -/
theorem c1_identifier_resolution (path : List Str) (kvs : List (Str × Json)) (v : Json) (ds : List Diag)
    (hclass : is_publication_manifest path = true)
    (hfirst : lookupFirstVal kvs identifierKeys = some v)
    (hrun : processFile path (Json.obj kvs) = Except.ok ds) :
    get_identifier_from (Json.obj kvs) = v
    ∧ (v ≠ Json.null → Diag.missingIdentifier path ∉ ds)
    ∧ (v = Json.null → Diag.missingIdentifier path ∈ ds) := by
  have hget : get_identifier_from (Json.obj kvs) = v := by
    rw [get_identifier_from, firstKeyVal_obj, hfirst]
    rfl
  rw [processFile_manifest path _ hclass] at hrun
  obtain ⟨ds1, hds1, hsplit⟩ := manifestCheck_ok_parts path _ ds hrun
  have hnotmi : Diag.missingIdentifier path ∉ ds1 := by
    intro hm
    obtain ⟨r, _, he⟩ := requiredDiags_ok_shape path _ _ ds1 hds1 _ hm
    exact absurd he (by simp)
  subst hsplit
  refine ⟨hget, ?_, ?_⟩
  · intro hv
    have hnn : (get_identifier_from (Json.obj kvs)).isNull = false := by
      rw [hget]
      cases v <;> simp_all [Json.isNull]
    by_cases heq : parentName path = pyStr (get_identifier_from (Json.obj kvs))
    · rw [identifierDiags_eq path _ hnn heq, List.append_nil]
      exact hnotmi
    · rw [identifierDiags_ne path _ hnn heq]
      simp
      exact hnotmi
  · intro hv
    have hnn : (get_identifier_from (Json.obj kvs)).isNull = true := by
      rw [hget, hv]
      rfl
    rw [identifierDiags_null path _ hnn]
    simp

/-- Witness for C1 (amended) at `{"id": 7, "title": "T"}` under
`publications/X/manifest.json`: the key `id` is the first present candidate,
its value `7` is resolved, and no missing-identifier diagnostic appears. -/
theorem c1_identifier_resolution_witness :
    lookupFirstVal [("id".data, Json.num 7), ("title".data, Json.str "T".data)] identifierKeys
        = some (Json.num 7)
    ∧ get_identifier_from (Json.obj [("id".data, Json.num 7), ("title".data, Json.str "T".data)])
        = Json.num 7
    ∧ Diag.missingIdentifier (segs [".", "publications", "7", "manifest.json"])
        ∉ [Diag.missingManifestField (segs [".", "publications", "7", "manifest.json"]) "identifier".data] := by
  refine ⟨by rfl, ?_⟩
  have h := c1_identifier_resolution (segs [".", "publications", "7", "manifest.json"])
    [("id".data, Json.num 7), ("title".data, Json.str "T".data)] (Json.num 7)
    [Diag.missingManifestField (segs [".", "publications", "7", "manifest.json"]) "identifier".data]
    (by decide) (by rfl) (by rfl)
  exact ⟨h.1, h.2.1 (by simp)⟩

/-- Counterexample to C1 as stated: in
`{"identifier": null, "title": "T"}` the first candidate key `identifier`
is present (with JSON `null` as its value), yet the
manifest-missing-identifier diagnostic IS emitted for the file, because
`get_identifier_from` returns `obj.get(k)` and the caller tests `is None`. -/
theorem c1_null_identifier_cex :
    hasKey [("identifier".data, Json.null), ("title".data, Json.str "T".data)] "identifier".data = true
    ∧ is_publication_manifest (segs [".", "publications", "X", "manifest.json"]) = true
    ∧ processFile (segs [".", "publications", "X", "manifest.json"])
        (Json.obj [("identifier".data, Json.null), ("title".data, Json.str "T".data)]) =
      Except.ok [Diag.missingIdentifier (segs [".", "publications", "X", "manifest.json"])] :=
  ⟨by decide, by decide, by rfl⟩

theorem diagIndex_dialogueItem (path : List Str) (j : Nat) (x : Json) :
    ∀ d ∈ dialogueItemDiags path j x, diagIndex d = some j := by
  intro d hd
  cases x <;> simp only [dialogueItemDiags, List.mem_filterMap, List.mem_singleton] at hd
  case obj kvs =>
    obtain ⟨rf, hrf, he⟩ := hd
    by_cases hk : hasKey kvs rf = true
    · rw [if_pos hk] at he
      exact absurd he (by simp)
    · rw [if_neg hk] at he
      injection he with he2
      subst he2
      rfl
  all_goals (subst hd; rfl)

theorem diagIndex_recentItem (path : List Str) (j : Nat) (x : Json) :
    ∀ d ∈ recentItemDiags path j x, diagIndex d = some j := by
  intro d hd
  cases x <;> simp only [recentItemDiags, List.mem_singleton, List.mem_append] at hd
  case obj kvs =>
    rcases hd with hd | hd <;> split at hd <;> simp at hd <;> subst hd <;> rfl
  all_goals (subst hd; rfl)

theorem filter_flatMap_enumFrom {α : Type} (f : Nat → α → List Diag) (items : List α) (n i : Nat)
    (hf : ∀ j x d, d ∈ f j x → diagIndex d = some j) :
    ((List.enumFrom n items).flatMap (fun p => f p.1 p.2)).filter (fun d => diagIndex d == some i) =
      if n ≤ i then (match items[i - n]? with | some x => f i x | none => []) else [] := by
  induction items generalizing n with
  | nil => simp
  | cons x xs ih =>
    rw [List.enumFrom]
    rw [List.flatMap_cons, List.filter_append, ih (n + 1)]
    rcases Nat.lt_trichotomy n i with hlt | heq | hgt
    · have hfilter : (f n x).filter (fun d => diagIndex d == some i) = [] := by
        apply List.filter_eq_nil_iff.mpr
        intro d hd
        simp [hf n x d hd]
        omega
      rw [hfilter]
      have h1 : n ≤ i := Nat.le_of_lt hlt
      have h2 : n + 1 ≤ i := hlt
      simp only [if_pos h1, if_pos h2, List.nil_append]
      have he : i - n = (i - (n + 1)) + 1 := by omega
      rw [he, List.getElem?_cons_succ]
    · subst heq
      have hfilter : (f n x).filter (fun d => diagIndex d == some n) = f n x := by
        apply List.filter_eq_self.mpr
        intro d hd
        simp [hf n x d hd]
      rw [hfilter]
      simp only [if_neg (by omega : ¬ n + 1 ≤ n), if_pos (Nat.le_refl n), Nat.sub_self]
      simp
    · have hfilter : (f n x).filter (fun d => diagIndex d == some i) = [] := by
        apply List.filter_eq_nil_iff.mpr
        intro d hd
        simp [hf n x d hd]
        omega
      rw [hfilter]
      simp only [if_neg (by omega : ¬ n ≤ i), if_neg (by omega : ¬ n + 1 ≤ i)]
      simp

/-- C7: in a DialoguesFile, a non-array document yields the single
not-an-array diagnostic; for an array document the diagnostics referencing
index `i` are exactly those of the `i`-th element, independently of the
other elements: one not-an-object diagnostic (field checks skipped) when the
element is not a mapping, else one diagnostic per absent key among
`character_identifier`, `ordinal`, `text`, carrying path, index and field. -/
theorem c7_dialogues_elements (path : List Str) (data : Json) :
    (data.isArr = false → dialoguesCheck path data = [Diag.dialoguesNotArray path])
    ∧ (∀ items, data = Json.arr items → ∀ i,
        (dialoguesCheck path data).filter (fun d => diagIndex d == some i) =
          (match items[i]? with
           | some item => dialogueItemDiags path i item
           | none => []))
    ∧ (∀ i item, item.isObj = false →
        dialogueItemDiags path i item = [Diag.dialogueNotObject path i])
    ∧ (∀ i kvs, dialogueItemDiags path i (Json.obj kvs) =
        ["character_identifier".data, "ordinal".data, "text".data].filterMap
          (fun rf => if hasKey kvs rf then none else some (Diag.missingDialogueField path i rf))) := by
  refine ⟨?_, ?_, ?_, ?_⟩
  · intro h
    cases data <;> simp_all [dialoguesCheck, Json.isArr]
  · intro items hdata i
    subst hdata
    rw [dialoguesCheck]
    have h := filter_flatMap_enumFrom (dialogueItemDiags path) items 0 i
      (diagIndex_dialogueItem path)
    simp only [Nat.zero_le, if_pos, Nat.sub_zero] at h
    have he : items.enum = List.enumFrom 0 items := rfl
    rw [he]
    cases hitem : items[i]? with
    | none => simp only [hitem] at h ⊢; exact h
    | some item => simp only [hitem] at h ⊢; exact h
  · intro i item h
    cases item <;> simp_all [dialogueItemDiags, Json.isObj]
  · intro i kvs
    rfl

/-- Witness for C7 at the spec's concrete example: a dialogues array whose
single element misses only `text` yields exactly one diagnostic, referencing
index 0 and field `text`. -/
theorem c7_dialogues_elements_witness :
    (dialoguesCheck (segs [".", "p", "segments", "s", "dialogues.json"])
        (Json.arr [Json.obj [("character_identifier".data, Json.str "a".data), ("ordinal".data, Json.num 1)]])).filter
        (fun d => diagIndex d == some 0) =
      [Diag.missingDialogueField (segs [".", "p", "segments", "s", "dialogues.json"]) 0 "text".data] := by
  have h := (c7_dialogues_elements (segs [".", "p", "segments", "s", "dialogues.json"])
    (Json.arr [Json.obj [("character_identifier".data, Json.str "a".data), ("ordinal".data, Json.num 1)]])).2.1
    [Json.obj [("character_identifier".data, Json.str "a".data), ("ordinal".data, Json.num 1)]] rfl 0
  rw [h]
  rfl

theorem firstKeyVal_isNull_iff (kvs : List (Str × Json)) (ks : List Str) :
    (firstKeyVal (Json.obj kvs) ks).isNull = false
      ↔ ∃ v, lookupFirstVal kvs ks = some v ∧ v ≠ Json.null := by
  rw [firstKeyVal_obj]
  cases h : lookupFirstVal kvs ks with
  | none => simp [Json.isNull]
  | some v => cases v <;> simp [Json.isNull]

/-- C6 (amended): in a RecentFile array document, the diagnostics
referencing index `i` are exactly those of the `i`-th element, checked
independently of the others; a non-mapping element yields the single
not-an-object diagnostic with the other checks skipped; for a mapping
element the identifier and author checks are independent and both can fire;
each lookup tries its candidate keys in order and counts as found exactly
when the first present candidate key holds a non-null value — a present key
holding JSON `null` counts as missing even when a later candidate key is
present with a non-null value, because the loop returns at the first
present key. -/
theorem c6_recent_element_checks (path : List Str) (data : Json) :
    (∀ items, data = Json.arr items → ∀ i,
        (recentCheck path data).filter (fun d => diagIndex d == some i) =
          (match items[i]? with
           | some item => recentItemDiags path i item
           | none => []))
    ∧ (∀ i item, item.isObj = false →
        recentItemDiags path i item = [Diag.recentNotObject path i])
    ∧ (∀ i kvs, recentItemDiags path i (Json.obj kvs) =
        (if (get_identifier_from (Json.obj kvs)).isNull then [Diag.recentMissingIdentifier path i] else [])
        ++ (if (get_author_from (Json.obj kvs)).isNull then [Diag.recentMissingAuthor path i] else []))
    ∧ (∀ kvs, (get_identifier_from (Json.obj kvs)).isNull = false
        ↔ ∃ v, lookupFirstVal kvs identifierKeys = some v ∧ v ≠ Json.null)
    ∧ (∀ kvs, (get_author_from (Json.obj kvs)).isNull = false
        ↔ ∃ v, lookupFirstVal kvs authorKeys = some v ∧ v ≠ Json.null) := by
  refine ⟨?_, ?_, ?_, ?_, ?_⟩
  · intro items hdata i
    subst hdata
    rw [recentCheck]
    have h := filter_flatMap_enumFrom (recentItemDiags path) items 0 i
      (diagIndex_recentItem path)
    simp only [Nat.zero_le, if_pos, Nat.sub_zero] at h
    have he : items.enum = List.enumFrom 0 items := rfl
    rw [he]
    cases hitem : items[i]? with
    | none => simp only [hitem] at h ⊢; exact h
    | some item => simp only [hitem] at h ⊢; exact h
  · intro i item h
    cases item <;> simp_all [recentItemDiags, Json.isObj]
  · intro i kvs
    rfl
  · intro kvs
    exact firstKeyVal_isNull_iff kvs identifierKeys
  · intro kvs
    exact firstKeyVal_isNull_iff kvs authorKeys

/-- Witness for C6 at the spec's concrete example `[{"id": "x"}]` in
`publications/recent.json`: index 0 gets exactly the missing-author
diagnostic, and for an element missing both lookups both diagnostics fire. -/
theorem c6_recent_element_checks_witness :
    (recentCheck (segs [".", "publications", "recent.json"])
        (Json.arr [Json.obj [("id".data, Json.str "x".data)]])).filter
        (fun d => diagIndex d == some 0) =
      [Diag.recentMissingAuthor (segs [".", "publications", "recent.json"]) 0]
    ∧ recentItemDiags (segs [".", "publications", "recent.json"]) 0 (Json.obj [("note".data, Json.str "n".data)]) =
      [Diag.recentMissingIdentifier (segs [".", "publications", "recent.json"]) 0,
       Diag.recentMissingAuthor (segs [".", "publications", "recent.json"]) 0] := by
  constructor
  · have h := (c6_recent_element_checks (segs [".", "publications", "recent.json"])
      (Json.arr [Json.obj [("id".data, Json.str "x".data)]])).1
      [Json.obj [("id".data, Json.str "x".data)]] rfl 0
    rw [h]
    rfl
  · rfl

/-- Counterexample to C6 as stated: in a RecentFile element
`{"identifier": null, "id": "x", "author": "A"}` the candidate key
`identifier` IS present, and the candidate key `id` is even present with a
non-null value, yet the missing-identifier diagnostic fires for that
element: presence alone does not determine "found", and the first present
candidate key short-circuits the lookup. -/
theorem c6_null_identifier_cex :
    hasKey [("identifier".data, Json.null), ("id".data, Json.str "x".data),
        ("author".data, Json.str "A".data)] "identifier".data = true
    ∧ hasKey [("identifier".data, Json.null), ("id".data, Json.str "x".data),
        ("author".data, Json.str "A".data)] "id".data = true
    ∧ dictGet [("identifier".data, Json.null), ("id".data, Json.str "x".data),
        ("author".data, Json.str "A".data)] "id".data = Json.str "x".data
    ∧ recentCheck (segs [".", "publications", "recent.json"])
        (Json.arr [Json.obj [("identifier".data, Json.null), ("id".data, Json.str "x".data),
          ("author".data, Json.str "A".data)]]) =
      [Diag.recentMissingIdentifier (segs [".", "publications", "recent.json"]) 0] :=
  ⟨by decide, by decide, by rfl, by rfl⟩

theorem requiredDiags_container (path : List Str) (data : Json) (rs : List Str)
    (h : isContainerLike data = true) :
    ∃ ds, requiredDiags path data rs = .ok ds := by
  induction rs with
  | nil => exact ⟨[], rfl⟩
  | cons r rs ih =>
    obtain ⟨ds, hds⟩ := ih
    obtain ⟨b, hb⟩ : ∃ b, pyMem r data = .ok b := by
      cases data <;> simp_all [pyMem, isContainerLike]
    refine ⟨(if b then [] else [Diag.missingManifestField path r]) ++ ds, ?_⟩
    rw [requiredDiags, hb, hds]

theorem requiredDiags_crash (path : List Str) (data : Json) (r : Str) (rs : List Str)
    (h : isContainerLike data = false) :
    requiredDiags path data (r :: rs) = .error () := by
  cases data <;> simp_all [requiredDiags, pyMem, isContainerLike]

theorem manifestCheck_container (path : List Str) (data : Json)
    (h : isContainerLike data = true) :
    ∃ ds, manifestCheck path data = .ok ds := by
  obtain ⟨ds, hds⟩ := requiredDiags_container path data ["identifier".data, "title".data] h
  refine ⟨ds ++ identifierDiags path data, ?_⟩
  rw [manifestCheck, hds]

theorem manifestCheck_crash (path : List Str) (data : Json)
    (h : isContainerLike data = false) :
    manifestCheck path data = .error () := by
  rw [manifestCheck, requiredDiags_crash path data _ _ h]

theorem processFile_ok_of_not_manifest (path : List Str) (data : Json)
    (h : is_publication_manifest path = false) :
    ∃ ds, processFile path data = .ok ds := by
  rw [processFile]
  simp only [h, Bool.false_eq_true, if_false]
  split
  · exact ⟨_, rfl⟩
  · split
    · exact ⟨_, rfl⟩
    · split
      · exact ⟨_, rfl⟩
      · exact ⟨_, rfl⟩

theorem processFile_error_iff (path : List Str) (data : Json) :
    processFile path data = .error ()
      ↔ (is_publication_manifest path = true ∧ isContainerLike data = false) := by
  by_cases hm : is_publication_manifest path = true
  · rw [processFile_manifest _ _ hm]
    cases hc : isContainerLike data
    · simp [manifestCheck_crash path data hc, hm]
    · obtain ⟨ds, hds⟩ := manifestCheck_container path data hc
      simp [hds, hm]
  · have hm2 : is_publication_manifest path = false := by
      cases h : is_publication_manifest path
      · rfl
      · exact absurd h hm
    obtain ⟨ds, hds⟩ := processFile_ok_of_not_manifest path data hm2
    simp [hds, hm2]

theorem exists_mem_cons_head_false {α : Type} (P : α → Bool) (f : α) (rest : List α)
    (h : P f = false) :
    (∃ g ∈ f :: rest, P g = true) ↔ ∃ g ∈ rest, P g = true := by
  constructor
  · rintro ⟨g, hg, hPg⟩
    rcases List.mem_cons.1 hg with rfl | hg2
    · rw [h] at hPg
      cases hPg
    · exact ⟨g, hg2, hPg⟩
  · rintro ⟨g, hg, hPg⟩
    exact ⟨g, List.mem_cons_of_mem _ hg, hPg⟩

theorem runLoop_crash_iff (files : List (List Str × Except Str Json)) :
    (runLoop files).2 = true ↔ ∃ f ∈ files, crashyFile f = true := by
  induction files with
  | nil => simp [runLoop]
  | cons f rest ih =>
    obtain ⟨path, content⟩ := f
    rw [runLoop.eq_def]
    simp only []
    by_cases h1 : endsWithB ".json".data (basename path) = true
    · by_cases h2 : (basename path == "meta.json".data || isPrefixB "package".data (basename path)) = true
      · have hcf : crashyFile (path, content) = false := by
          cases content with
          | error e => rfl
          | ok data => simp [crashyFile, h2]
        simp only [h1, Bool.not_true, Bool.false_eq_true, if_false, h2, if_true]
        rw [ih]
        exact (exists_mem_cons_head_false _ _ _ hcf).symm
      · have h2f : (basename path == "meta.json".data || isPrefixB "package".data (basename path)) = false := by
          cases h : (basename path == "meta.json".data || isPrefixB "package".data (basename path))
          · rfl
          · exact absurd h h2
        simp only [h1, Bool.not_true, Bool.false_eq_true, if_false, h2f, if_false]
        cases content with
        | error e =>
          have hcf : crashyFile (path, Except.error e) = false := rfl
          show (runLoop rest).2 = true ↔ _
          rw [ih]
          exact (exists_mem_cons_head_false _ _ _ hcf).symm
        | ok data =>
          show ((match processFile path data with
                 | Except.error _ => (([] : List Diag), true)
                 | Except.ok ds => (ds ++ (runLoop rest).1, (runLoop rest).2)).2 = true) ↔ _
          cases hp : processFile path data with
          | error u =>
            obtain ⟨hmpath, hcdata⟩ := (processFile_error_iff path data).1 (by rw [hp])
            show true = true ↔ _
            have hcf : crashyFile (path, Except.ok data) = true := by
              simp [crashyFile, h1, hmpath, hcdata, h2f]
            constructor
            · intro _
              exact ⟨(path, Except.ok data), by simp, hcf⟩
            · intro _
              rfl
          | ok ds =>
            show (runLoop rest).2 = true ↔ _
            rw [ih]
            have hcf : crashyFile (path, Except.ok data) = false := by
              simp only [crashyFile]
              by_cases hmp : is_publication_manifest path = true
              · cases hcd : isContainerLike data
                · exact absurd hp (by simp [processFile_manifest _ _ hmp, manifestCheck_crash path data hcd])
                · simp [hmp, hcd]
              · have hmf : is_publication_manifest path = false := by
                  cases h : is_publication_manifest path
                  · rfl
                  · exact absurd h hmp
                simp [hmf]
            exact (exists_mem_cons_head_false _ _ _ hcf).symm
    · have h1f : endsWithB ".json".data (basename path) = false := by
        cases h : endsWithB ".json".data (basename path)
        · rfl
        · exact absurd h h1
      simp only [h1f, Bool.not_false, if_true]
      rw [ih]
      have hcf : crashyFile (path, content) = false := by
        cases content with
        | error e => rfl
        | ok data => simp [crashyFile, h1f]
      exact (exists_mem_cons_head_false _ _ _ hcf).symm

/-- C2 (amended): a ManifestFile whose document parses to an object, array
or string is validated recoverably (its diagnostics are produced and the
run moves on), but a manifest document parsing to a number, boolean or JSON
`null` raises an uncaught `TypeError` in the required-field membership
test, and the run aborts exactly when the walked file list contains such a
manifest. -/
theorem c2_manifest_shape_recovery (path : List Str) (data : Json) :
    (is_publication_manifest path = true →
      (isContainerLike data = true → ∃ ds, processFile path data = Except.ok ds)
      ∧ (isContainerLike data = false → processFile path data = Except.error ()))
    ∧ (∀ files : List (List Str × Except Str Json),
        (runLoop files).2 = true ↔ ∃ f ∈ files, crashyFile f = true) := by
  constructor
  · intro hm
    constructor
    · intro hc
      rw [processFile_manifest _ _ hm]
      exact manifestCheck_container path data hc
    · intro hc
      exact (processFile_error_iff path data).2 ⟨hm, hc⟩
  · exact runLoop_crash_iff

/-- Witness for C2 (amended): an array-shaped manifest document is handled
recoverably, and a one-file walked list with a null manifest document makes
the run abort. -/
theorem c2_manifest_shape_recovery_witness :
    (∃ ds, processFile (segs [".", "publications", "X", "manifest.json"]) (Json.arr [])
        = Except.ok ds)
    ∧ ((runLoop [(segs [".", "publications", "X", "manifest.json"], Except.ok Json.null)]).2 = true
        ↔ ∃ f ∈ [(segs [".", "publications", "X", "manifest.json"], Except.ok Json.null)],
            crashyFile f = true) := by
  have h := c2_manifest_shape_recovery (segs [".", "publications", "X", "manifest.json"]) (Json.arr [])
  exact ⟨(h.1 (by decide)).1 (by decide),
    h.2 [(segs [".", "publications", "X", "manifest.json"], Except.ok Json.null)]⟩

/-- Counterexample to C2 as stated: a tree holding
`publications/X/manifest.json` whose document is JSON `null` (a non-mapping
manifest document) makes the whole run abort with an uncaught `TypeError`
before reporting anything. -/
theorem c2_crash_cex :
    is_publication_manifest (segs [".", "publications", "X", "manifest.json"]) = true
    ∧ runValidator [Entry.dir "publications".data [Entry.dir "X".data
        [Entry.file "manifest.json".data (Except.ok Json.null)]]] = ([], true) := by
  constructor
  · decide
  · simp +decide [runValidator, walkList, walkDirs, filesOf]

/-- C9 (amended): on every input tree whose run completes without an
uncaught exception, the exit code is a pure function of whether the
diagnostic sequence is empty — 0 exactly when no diagnostics were
accumulated, 1 exactly when some were — and the printed diagnostics are the
accumulated sequence in emission order. -/
theorem c9_exit_code (t : List Entry) (ds : List Diag)
    (h : runValidator t = (ds, false)) :
    ((finalReport (runValidator t)).1 = 0 ↔ ds = [])
    ∧ ((finalReport (runValidator t)).1 = 1 ↔ ds ≠ [])
    ∧ (finalReport (runValidator t)).2 = (if ds.isEmpty then [] else ds) := by
  rw [h]
  by_cases hds : ds = []
  · subst hds
    exact ⟨by simp [finalReport], by simp [finalReport], by simp [finalReport]⟩
  · have hne : ds.isEmpty = false := by
      cases ds
      · exact absurd rfl hds
      · rfl
    refine ⟨?_, ?_, ?_⟩
    · simp [finalReport, hne, hds]
    · simp [finalReport, hne, hds]
    · simp [finalReport, hne]

/-- Witness for C9 (amended) at a tree with one diagnostic-producing file
(`publications/recent.json` holding a number): exit code 1, the single
diagnostic printed. -/
theorem c9_exit_code_witness :
    ((finalReport (runValidator
        [Entry.dir "publications".data [Entry.file "recent.json".data (Except.ok (Json.num 3))]])).1 = 0
      ↔ [Diag.recentNotArray (segs [".", "publications", "recent.json"])] = ([] : List Diag))
    ∧ ((finalReport (runValidator
        [Entry.dir "publications".data [Entry.file "recent.json".data (Except.ok (Json.num 3))]])).1 = 1
      ↔ [Diag.recentNotArray (segs [".", "publications", "recent.json"])] ≠ ([] : List Diag))
    ∧ (finalReport (runValidator
        [Entry.dir "publications".data [Entry.file "recent.json".data (Except.ok (Json.num 3))]])).2 =
      (if [Diag.recentNotArray (segs [".", "publications", "recent.json"])].isEmpty then []
       else [Diag.recentNotArray (segs [".", "publications", "recent.json"])]) := by
  have hrun : runValidator
      [Entry.dir "publications".data [Entry.file "recent.json".data (Except.ok (Json.num 3))]] =
      ([Diag.recentNotArray (segs [".", "publications", "recent.json"])], false) := by
    simp +decide [runValidator, walkList, walkDirs, filesOf]
  exact c9_exit_code _ _ hrun

/-- Counterexample to C9 as stated: a tree whose single manifest document is
the number 5 aborts the run with an empty accumulated diagnostic sequence,
yet the process exits 1 (the interpreter's uncaught-exception status), so
the exit code is not 0 whenever no diagnostics were accumulated. -/
theorem c9_crash_exit_cex :
    runValidator [Entry.dir "publications".data [Entry.dir "X".data
        [Entry.file "manifest.json".data (Except.ok (Json.num 5))]]] = ([], true)
    ∧ finalReport (runValidator [Entry.dir "publications".data [Entry.dir "X".data
        [Entry.file "manifest.json".data (Except.ok (Json.num 5))]]]) = (1, []) := by
  have hrun : runValidator [Entry.dir "publications".data [Entry.dir "X".data
      [Entry.file "manifest.json".data (Except.ok (Json.num 5))]]] = ([], true) := by
    simp +decide [runValidator, walkList, walkDirs, filesOf]
  exact ⟨hrun, by rw [hrun]; rfl⟩

theorem diagPath_dialogueItem (path : List Str) (j : Nat) (x : Json) :
    ∀ d ∈ dialogueItemDiags path j x, diagPath d = path := by
  intro d hd
  cases x <;> simp only [dialogueItemDiags, List.mem_filterMap, List.mem_singleton] at hd
  case obj kvs =>
    obtain ⟨rf, hrf, he⟩ := hd
    by_cases hk : hasKey kvs rf = true
    · rw [if_pos hk] at he
      exact absurd he (by simp)
    · rw [if_neg hk] at he
      injection he with he2
      subst he2
      rfl
  all_goals (subst hd; rfl)

theorem diagPath_recentItem (path : List Str) (j : Nat) (x : Json) :
    ∀ d ∈ recentItemDiags path j x, diagPath d = path := by
  intro d hd
  cases x <;> simp only [recentItemDiags, List.mem_singleton, List.mem_append] at hd
  case obj kvs =>
    rcases hd with hd | hd <;> split at hd <;> simp at hd <;> subst hd <;> rfl
  all_goals (subst hd; rfl)

theorem identifierDiags_paths (path : List Str) (data : Json) :
    ∀ d ∈ identifierDiags path data, diagPath d = path := by
  intro d hm
  rw [identifierDiags] at hm
  split at hm
  · simp at hm
    subst hm
    rfl
  · split at hm
    · simp at hm
      subst hm
      rfl
    · simp at hm

theorem dialoguesCheck_paths (path : List Str) (data : Json) :
    ∀ d ∈ dialoguesCheck path data, diagPath d = path := by
  intro d hd
  cases data <;> simp only [dialoguesCheck] at hd
  case arr items =>
    obtain ⟨p, hp, hmem⟩ := List.mem_flatMap.1 hd
    exact diagPath_dialogueItem path p.1 p.2 d hmem
  all_goals (simp at hd; subst hd; rfl)

theorem recentCheck_paths (path : List Str) (data : Json) :
    ∀ d ∈ recentCheck path data, diagPath d = path := by
  intro d hd
  cases data <;> simp only [recentCheck] at hd
  case arr items =>
    obtain ⟨p, hp, hmem⟩ := List.mem_flatMap.1 hd
    exact diagPath_recentItem path p.1 p.2 d hmem
  all_goals (simp at hd; subst hd; rfl)

theorem genericCheck_paths (path : List Str) (data : Json) :
    ∀ d ∈ genericCheck path data, diagPath d = path := by
  intro d hd
  cases data <;> simp only [genericCheck] at hd
  case obj kvs =>
    split at hd
    · simp at hd
      subst hd
      rfl
    · simp at hd
  all_goals simp at hd

theorem processFile_paths (path : List Str) (data : Json) (ds : List Diag)
    (h : processFile path data = .ok ds) :
    ∀ d ∈ ds, diagPath d = path := by
  intro d hd
  rw [processFile] at h
  by_cases hm : is_publication_manifest path = true
  · rw [if_pos hm] at h
    obtain ⟨ds1, hds1, hsplit⟩ := manifestCheck_ok_parts path data ds h
    subst hsplit
    rcases List.mem_append.1 hd with h1 | h1
    · obtain ⟨r, _, he⟩ := requiredDiags_ok_shape path data _ ds1 hds1 d h1
      subst he
      rfl
    · exact identifierDiags_paths path data d h1
  · rw [if_neg hm] at h
    by_cases hdg : is_dialogues path = true
    · rw [if_pos hdg] at h
      injection h with h2
      subst h2
      exact dialoguesCheck_paths path data d hd
    · rw [if_neg hdg] at h
      by_cases hr : is_recent path = true
      · rw [if_pos hr] at h
        injection h with h2
        subst h2
        exact recentCheck_paths path data d hd
      · rw [if_neg hr] at h
        by_cases hg : containsSub "/publications/".data (joinSegs path) = true
        · rw [if_pos hg] at h
          injection h with h2
          subst h2
          exact genericCheck_paths path data d hd
        · rw [if_neg hg] at h
          injection h with h2
          subst h2
          simp at hd

theorem runLoop_paths (files : List (List Str × Except Str Json)) (d : Diag)
    (hd : d ∈ (runLoop files).1) :
    ∃ f ∈ files, diagPath d = f.1 := by
  induction files with
  | nil => simp [runLoop] at hd
  | cons f rest ih =>
    obtain ⟨path, content⟩ := f
    rw [runLoop.eq_def] at hd
    simp only [] at hd
    by_cases h1 : endsWithB ".json".data (basename path) = true
    · by_cases h2 : (basename path == "meta.json".data || isPrefixB "package".data (basename path)) = true
      · rw [if_neg (by simp [h1]), if_pos h2] at hd
        obtain ⟨g, hg, he⟩ := ih hd
        exact ⟨g, List.mem_cons_of_mem _ hg, he⟩
      · rw [if_neg (by simp [h1]), if_neg h2] at hd
        cases content with
        | error e =>
          rcases List.mem_cons.1 hd with he | he
          · exact ⟨(path, Except.error e), List.mem_cons_self _ _, by rw [he]; rfl⟩
          · obtain ⟨g, hg, hge⟩ := ih he
            exact ⟨g, List.mem_cons_of_mem _ hg, hge⟩
        | ok data =>
          revert hd
          show d ∈ (match processFile path data with
                 | Except.error _ => (([] : List Diag), true)
                 | Except.ok ds => (ds ++ (runLoop rest).1, (runLoop rest).2)).1 → _
          cases hp : processFile path data with
          | error u =>
            intro hd
            simp at hd
          | ok ds =>
            intro hd
            rcases List.mem_append.1 hd with he | he
            · exact ⟨(path, Except.ok data), List.mem_cons_self _ _,
                processFile_paths path data ds hp d he⟩
            · obtain ⟨g, hg, hge⟩ := ih he
              exact ⟨g, List.mem_cons_of_mem _ hg, hge⟩
    · rw [if_pos (by simp [Bool.not_eq_true] at h1; simp [h1])] at hd
      obtain ⟨g, hg, he⟩ := ih hd
      exact ⟨g, List.mem_cons_of_mem _ hg, he⟩

theorem filesOf_paths (path : List Str) (es : List Entry) :
    ∀ q ∈ filesOf path es, ∃ m, q.1 = path ++ [m] := by
  intro q hq
  obtain ⟨e, he, hmap⟩ := List.mem_filterMap.1 hq
  cases e with
  | file n c =>
    simp at hmap
    exact ⟨n, by rw [← hmap]⟩
  | dir n ch => simp at hmap

theorem walkDirs_paths (path : List Str) (es : List Entry) :
    ∀ q ∈ walkDirs path es,
      ∃ suf, q.1 = path ++ suf ∧ 2 ≤ suf.length ∧ ∀ s ∈ suf.dropLast, skipName s = false := by
  induction path, es using walkDirs.induct with
  | case1 path => simp [walkDirs]
  | case2 path a c rest ih =>
    rw [walkDirs]
    exact ih
  | case3 path n ch rest ih1 ih2 =>
    intro q hq
    rw [walkDirs] at hq
    rcases List.mem_append.1 hq with h | h
    · by_cases hskip : skipName n = true
      · rw [if_pos hskip] at h
        simp at h
      · rw [if_neg hskip] at h
        have hsk : skipName n = false := by
          cases hs : skipName n
          · rfl
          · exact absurd hs hskip
        rcases List.mem_append.1 h with h2 | h2
        · obtain ⟨m, hm⟩ := filesOf_paths (path ++ [n]) ch q h2
          refine ⟨[n, m], by simp [hm], by simp, ?_⟩
          intro s hs
          simp at hs
          subst hs
          exact hsk
        · obtain ⟨suf, hsuf, hlen, hall⟩ := ih1 q h2
          refine ⟨n :: suf, by simp [hsuf], by simp; omega, ?_⟩
          intro s hs
          have hsufne : suf ≠ [] := by
            intro hcon
            rw [hcon] at hlen
            simp at hlen
          rw [List.dropLast_cons_of_ne_nil hsufne] at hs
          rcases List.mem_cons.1 hs with he | he
          · subst he
            exact hsk
          · exact hall s he
    · exact ih2 q h

theorem walkList_paths (path : List Str) (es : List Entry) :
    ∀ q ∈ walkList path es,
      ∃ suf, q.1 = path ++ suf ∧ suf ≠ [] ∧ ∀ s ∈ suf.dropLast, skipName s = false := by
  intro q hq
  rcases List.mem_append.1 hq with h | h
  · obtain ⟨m, hm⟩ := filesOf_paths path es q h
    exact ⟨[m], hm, by simp, by simp⟩
  · obtain ⟨suf, hsuf, hlen, hall⟩ := walkDirs_paths path es q h
    refine ⟨suf, hsuf, ?_, hall⟩
    intro hcon
    rw [hcon] at hlen
    simp at hlen

theorem joinSegs_cons_ne (s : Str) (es : List Str) (h : es ≠ []) :
    joinSegs (s :: es) = s ++ '/' :: joinSegs es := by
  cases es with
  | nil => exact absurd rfl h
  | cons t r => rfl

theorem slash_mem_joinSegs (t r : Str) (rest : List Str) :
    '/' ∈ joinSegs (t :: r :: rest) := by
  rw [joinSegs_cons_ne t _ (by simp)]
  simp

theorem suffix_append_right_of_le (l a b : Str) (h : l <:+ a ++ b)
    (hl : l.length ≤ b.length) : l <:+ b := by
  obtain ⟨u, hu⟩ := h
  refine ⟨u.drop a.length, ?_⟩
  have hlen : a.length ≤ u.length := by
    have h2 := congrArg List.length hu
    simp at h2
    omega
  have h3 : (u ++ l).drop a.length = u.drop a.length ++ l :=
    List.drop_append_of_le_length hlen
  rw [hu, List.drop_left] at h3
  exact h3.symm

theorem slash_align (A : Str) : ∀ (W X Y : Str), '/' ∉ A → '/' ∉ W →
    A ++ '/' :: X = W ++ '/' :: Y → A = W ∧ X = Y := by
  induction A with
  | nil =>
    intro W X Y hA hW h
    cases W with
    | nil => simpa using h
    | cons c W' =>
      simp only [List.nil_append, List.cons_append] at h
      injection h with h1 h2
      exact absurd (h1 ▸ List.mem_cons_self '/' W') hW
  | cons a A' ih =>
    intro W X Y hA hW h
    cases W with
    | nil =>
      simp only [List.nil_append, List.cons_append] at h
      injection h with h1 h2
      exact absurd (h1 ▸ List.mem_cons_self a A') hA
    | cons c W' =>
      simp only [List.cons_append] at h
      injection h with h1 h2
      subst h1
      have hA' : '/' ∉ A' := fun hm => hA (List.mem_cons_of_mem _ hm)
      have hW' : '/' ∉ W' := fun hm => hW (List.mem_cons_of_mem _ hm)
      obtain ⟨he1, he2⟩ := ih W' X Y hA' hW' h2
      exact ⟨by rw [he1], he2⟩

theorem suffix_joinSegs_of_ends (A B q : Str) (pre : List Str) (hAq : A <:+ q) :
    (A ++ '/' :: B) <:+ joinSegs (pre ++ [q, B]) := by
  induction pre with
  | nil =>
    obtain ⟨u, hu⟩ := hAq
    refine ⟨u, ?_⟩
    show u ++ (A ++ '/' :: B) = joinSegs [q, B]
    have hq : joinSegs [q, B] = q ++ '/' :: B := rfl
    rw [hq, ← hu]
    simp
  | cons p pre' ih =>
    have hne : pre' ++ [q, B] ≠ [] := by simp
    rw [List.cons_append, joinSegs_cons_ne p _ hne]
    exact ih.trans ⟨p ++ ['/'], by simp⟩

theorem suffix_joinSegs (A B : Str) (hA : '/' ∉ A) (hB : '/' ∉ B) :
    ∀ (sg : List Str), (∀ s ∈ sg, '/' ∉ s) →
      ((A ++ '/' :: B) <:+ joinSegs sg ↔ ∃ pre q, sg = pre ++ [q, B] ∧ A <:+ q) := by
  intro sg
  induction sg with
  | nil =>
    intro hs
    constructor
    · intro h
      rw [show joinSegs [] = [] from rfl, List.suffix_nil] at h
      exact absurd h (by simp)
    · rintro ⟨pre, q, heq, _⟩
      exact absurd heq (by simp)
  | cons s tail ih =>
    intro hs
    cases tail with
    | nil =>
      constructor
      · intro h
        exfalso
        have hmem : '/' ∈ s := h.sublist.subset (by simp)
        exact hs s (by simp) hmem
      · rintro ⟨pre, q, heq, _⟩
        exfalso
        have hl := congrArg List.length heq
        simp at hl
    | cons t rest =>
      have hJ : joinSegs (s :: t :: rest) = s ++ '/' :: joinSegs (t :: rest) := rfl
      constructor
      · intro h
        rw [hJ] at h
        have h3 : (A ++ '/' :: B) <:+ s ++ ['/'] ++ joinSegs (t :: rest) := by
          simpa [List.append_assoc] using h
        by_cases hlen : (A ++ '/' :: B).length ≤ (joinSegs (t :: rest)).length
        · have h2 : (A ++ '/' :: B) <:+ joinSegs (t :: rest) :=
            suffix_append_right_of_le _ _ _ h3 hlen
          obtain ⟨pre, q, heq, hAq⟩ := (ih (fun x hx => hs x (by simp [hx]))).1 h2
          exact ⟨s :: pre, q, by simp [heq], hAq⟩
        · push_neg at hlen
          have hLfull : (s ++ ['/'] ++ joinSegs (t :: rest)).length
              = s.length + 1 + (joinSegs (t :: rest)).length := by
            simp
            omega
          have hLP : (A ++ '/' :: B).length = A.length + 1 + B.length := by
            simp
            omega
          have hLs : (s ++ ['/']).length = s.length + 1 := by simp
          have hlen2 : (joinSegs (t :: rest)).length < A.length + 1 + B.length := by
            rw [← hLP]
            exact hlen
          have hdrop := List.suffix_iff_eq_drop.1 h3
          set k := (s ++ ['/'] ++ joinSegs (t :: rest)).length - (A ++ '/' :: B).length with hk
          have hkle : k ≤ s.length := by
            rw [hk, hLfull, hLP]
            omega
          have hk1 : k ≤ (s ++ ['/']).length := by
            rw [hk, hLfull, hLP, hLs]
            omega
          rw [List.drop_append_of_le_length hk1, List.drop_append_of_le_length hkle] at hdrop
          rw [List.append_assoc] at hdrop
          simp only [List.singleton_append] at hdrop
          have hWfree : '/' ∉ s.drop k := fun hm => hs s (by simp) (List.drop_subset _ s hm)
          obtain ⟨hAw, hBJ⟩ := slash_align A (s.drop k) B (joinSegs (t :: rest)) hA hWfree hdrop
          cases rest with
          | nil =>
            have hBt : B = t := hBJ
            refine ⟨[], s, ?_, ?_⟩
            · rw [hBt]
              rfl
            · rw [hAw]
              exact List.drop_suffix k s
          | cons r rest' =>
            exfalso
            have hmem : '/' ∈ joinSegs (t :: r :: rest') := slash_mem_joinSegs t r rest'
            rw [← hBJ] at hmem
            exact hB hmem
      · rintro ⟨pre, q, heq, hAq⟩
        rw [heq]
        exact suffix_joinSegs_of_ends A B q pre hAq

theorem is_recent_iff (p : List Str) (hs : ∀ s ∈ p, '/' ∉ s) :
    is_recent p = true
      ↔ ∃ pre q, normSegs p = pre ++ [q, "recent.json".data]
          ∧ "publications".data <:+ q := by
  rw [is_recent, endsWithB_iff]
  have hsplit : "publications/recent.json".data
      = "publications".data ++ '/' :: "recent.json".data := by decide
  rw [hsplit]
  exact suffix_joinSegs "publications".data "recent.json".data (by decide) (by decide)
    (normSegs p)
    (fun s hsm => hs s (List.mem_of_mem_filter hsm))

/-- C3 (amended): a file is classified RecentFile exactly when the manifest
and dialogues rules did not match and its normalized path ends with the
segment `recent.json` immediately preceded by a segment whose name merely
ends with the string `publications` — the whole segment `publications`
included, but also e.g. `mypublications`, because the source tests a string
suffix of the joined path, not a segment boundary. -/
theorem c3_recent_classification (p : List Str) (hs : ∀ s ∈ p, '/' ∉ s) :
    classify p = FileClass.recent
      ↔ is_publication_manifest p = false ∧ is_dialogues p = false
          ∧ ∃ pre q, normSegs p = pre ++ [q, "recent.json".data]
              ∧ "publications".data <:+ q := by
  rw [classify]
  by_cases hm : is_publication_manifest p = true
  · simp [hm]
  · have hmf : is_publication_manifest p = false := by
      cases h : is_publication_manifest p
      · rfl
      · exact absurd h hm
    by_cases hd : is_dialogues p = true
    · simp [hmf, hd]
    · have hdf : is_dialogues p = false := by
        cases h : is_dialogues p
        · rfl
        · exact absurd h hd
      by_cases hr : is_recent p = true
      · simp only [hmf, hdf, hr, Bool.false_eq_true, if_false, if_true]
        simp only [true_and]
        constructor
        · intro _
          exact (is_recent_iff p hs).1 hr
        · intro _
          trivial
      · have hrf : is_recent p = false := by
          cases h : is_recent p
          · rfl
          · exact absurd h hr
        simp only [hmf, hdf, hrf, Bool.false_eq_true, if_false]
        constructor
        · intro hcon
          split at hcon <;> exact absurd hcon (by simp)
        · rintro ⟨_, _, hex⟩
          exact absurd ((is_recent_iff p hs).2 hex) (by simp [hrf])

/-- Witness for C3 (amended) at the canonical path
`./publications/recent.json`, which is classified RecentFile and whose
normalized path ends in the two segments `publications`, `recent.json`. -/
theorem c3_recent_classification_witness :
    (classify (segs [".", "publications", "recent.json"]) = FileClass.recent
      ↔ is_publication_manifest (segs [".", "publications", "recent.json"]) = false
        ∧ is_dialogues (segs [".", "publications", "recent.json"]) = false
        ∧ ∃ pre q, normSegs (segs [".", "publications", "recent.json"])
              = pre ++ [q, "recent.json".data]
            ∧ "publications".data <:+ q)
    ∧ classify (segs [".", "publications", "recent.json"]) = FileClass.recent :=
  ⟨c3_recent_classification (segs [".", "publications", "recent.json"]) (by decide),
   by decide⟩

/-- Counterexample to C3 as stated: the path `./mypublications/recent.json`
contains no whole segment `publications`, yet it is classified RecentFile,
because the source's suffix test matches across the segment boundary. -/
theorem c3_recent_cex :
    classify (segs [".", "mypublications", "recent.json"]) = FileClass.recent
    ∧ (segs [".", "mypublications", "recent.json"]).all
        (fun s => !(s == "publications".data)) = true :=
  ⟨by decide, by decide⟩

/-- C8: no diagnostic of a run ever references a path passing through a
directory named `.git`, `.github`, `node_modules` or `__pycache__`: every
directory segment of a referenced path (the segments strictly between the
root `.` and the file name) fails the prune test, because the traversal
prunes those subtrees before visiting their files. -/
theorem c8_pruned_dirs (t : List Entry) (d : Diag)
    (hd : d ∈ (runValidator t).1) :
    ∀ s ∈ ((diagPath d).drop 1).dropLast, skipName s = false := by
  obtain ⟨f, hf, he⟩ := runLoop_paths (walkList [".".data] t) d hd
  obtain ⟨suf, hsuf, hne, hall⟩ := walkList_paths [".".data] t f hf
  intro s hs
  apply hall
  rw [he, hsuf] at hs
  simpa using hs

/-- Witness for C8 on a concrete tree that also contains a pruned `.git`
subtree: the produced diagnostic references `./publications/recent.json`,
whose only directory segment is not a pruned name. -/
theorem c8_pruned_dirs_witness :
    Diag.recentNotArray (segs [".", "publications", "recent.json"])
        ∈ (runValidator
            [Entry.dir ".git".data [Entry.file "bad.json".data (Except.error "boom".data)],
             Entry.dir "publications".data [Entry.file "recent.json".data (Except.ok (Json.num 3))]]).1
    ∧ ∀ s ∈ ((diagPath (Diag.recentNotArray (segs [".", "publications", "recent.json"]))).drop 1).dropLast,
        skipName s = false := by
  have hrun : runValidator
      [Entry.dir ".git".data [Entry.file "bad.json".data (Except.error "boom".data)],
       Entry.dir "publications".data [Entry.file "recent.json".data (Except.ok (Json.num 3))]] =
      ([Diag.recentNotArray (segs [".", "publications", "recent.json"])], false) := by
    simp +decide [runValidator, walkList, walkDirs, filesOf]
  have hd : Diag.recentNotArray (segs [".", "publications", "recent.json"])
      ∈ (runValidator
          [Entry.dir ".git".data [Entry.file "bad.json".data (Except.error "boom".data)],
           Entry.dir "publications".data [Entry.file "recent.json".data (Except.ok (Json.num 3))]]).1 := by
    rw [hrun]
    simp
  exact ⟨hd, c8_pruned_dirs _ _ hd⟩
